import Mathlib

/-!
A verification development for the FEES frame-labeler engine
(`visibility_appv3.py`): the label store, the multi-schema CSV reader,
the CSV writer, override computation, default propagation, the
navigation and range model, and dataset folder discovery.

Machine integers are modelled as `Int` (Python integers are unbounded).
A CSV cell is modelled as `Option Int`: `some v` when Python's `int(...)`
on the cell text would return `v`, and `none` when it would raise
`ValueError`.
-/

namespace FeesLabeler

/-- The fixed ordered structure schema (`STRUCTURE_COLUMNS` in the source). -/
def STRUCTURE_COLUMNS : List String :=
  ["LPW_PPW", "B", "VT", "LC_LP", "RC_RP", "PCR",
   "LA_LAF", "RA_RAF", "IAS", "LSE", "LSAF_FVF", "AC_TVF_PC"]

/-- A frame key `(video, swallow, frame)`. -/
abbrev FrameKey := Int × Int × Int

/-- One CSV body cell as consumed by `int(...)`. -/
abbrev Cell := Option Int

/-- One CSV body row. -/
abbrev Row := List Cell

/-- The two Python exception kinds that drive the reader's control flow:
`ValueError` from `int(...)` or `list.index`, `IndexError` from `row[i]`. -/
inductive PyErr where
  | valueError
  | indexError
deriving DecidableEq

/-- The label store `self.frame_states`: a Python dict from frame key to
checkbox list, modelled as an association list with unique keys
(updates replace in place, new keys are appended, as in a Python dict). -/
abbrev Store := List (FrameKey × List Int)

/-- `self.frame_states[key] = value`: replace the entry if the key is
present (keeping its position, as a Python dict does), else append. -/
def storeInsert (st : Store) (k : FrameKey) (v : List Int) : Store :=
  if st.any (fun p => p.1 = k) then
    st.map (fun p => if p.1 = k then (k, v) else p)
  else
    st ++ [(k, v)]

/-- Dictionary lookup: the value of the unique entry with key `k`, if any. -/
def storeLookup (st : Store) (k : FrameKey) : Option (List Int) :=
  (st.find? (fun p => p.1 = k)).map Prod.snd

/-- `row[i]`: `IndexError` when out of range. -/
def getCell (row : Row) (i : Nat) : Except PyErr Cell :=
  match row.get? i with
  | some c => .ok c
  | none => .error .indexError

/-- `int(cell)`: `ValueError` when the text does not parse. -/
def cellInt (c : Cell) : Except PyErr Int :=
  match c with
  | some v => .ok v
  | none => .error .valueError

/-- `video = int(row[0]); swallow = int(row[1]); frame = int(row[2])`,
evaluated left to right with Python's exception order. -/
def parseRowKey (row : Row) : Except PyErr FrameKey := do
  let c0 ← getCell row 0
  let video ← cellInt c0
  let c1 ← getCell row 1
  let swallow ← cellInt c1
  let c2 ← getCell row 2
  let frame ← cellInt c2
  return (video, swallow, frame)

/-- `header.index(name)`: first position of `name`, `ValueError` if absent. -/
def headerIndex : List String → String → Except PyErr Nat
  | [], _ => .error .valueError
  | h :: t, name => if h = name then .ok 0 else (headerIndex t name).map (· + 1)

/-- `any(f"{s}_vis" in header for s in STRUCTURE_COLUMNS)`. -/
def isNewSchema (header : List String) : Bool :=
  STRUCTURE_COLUMNS.any (fun s => header.contains (s ++ "_vis"))

/-- `any(f"{s}_overridden" in header for s in STRUCTURE_COLUMNS)`. -/
def isOldSchema (header : List String) : Bool :=
  STRUCTURE_COLUMNS.any (fun s => header.contains (s ++ "_overridden"))

/-- The NEW-schema per-row loop: for each structure `s` look up
`header.index(s_vis)` (unused afterwards, but it can raise), take
`base = 3 + 2 * STRUCTURE_COLUMNS.index(s)`, parse `int(row[base])`
(the severity, discarded) and `int(row[base+1])` (the visibility),
and append `1 if vis == 1 else 0`. Any exception escapes the row loop. -/
def readRowNewCells (header : List String) (row : Row) : List String → Except PyErr (List Int)
  | [] => .ok []
  | s :: rest => do
    let _ ← headerIndex header (s ++ "_vis")
    let base := 3 + 2 * (STRUCTURE_COLUMNS.indexOf s)
    let sevC ← getCell row base
    let _ ← cellInt sevC
    let visC ← getCell row (base + 1)
    let vis ← cellInt visC
    let tail ← readRowNewCells header row rest
    return (if vis = 1 then 1 else 0) :: tail

/-- The OLD-schema (`*_overridden`) per-row loop: a pointer starts at 3 and
advances by 2 per structure; `int(row[ptr])` is the visibility carrier.
Any exception escapes the row loop. -/
def readRowOldCells (row : Row) : List String → Nat → Except PyErr (List Int)
  | [], _ => .ok []
  | _ :: rest, ptr => do
    let c ← getCell row ptr
    let vis ← cellInt c
    let tail ← readRowOldCells row rest (ptr + 2)
    return (if vis = 1 then 1 else 0) :: tail

/-- The VERY OLD schema per-row loop: `int(row[3+i])` with a per-cell
`try/except` that coerces any failure (parse or missing cell) to 0. -/
def readRowVeryOld (row : Row) : List Int :=
  (List.range STRUCTURE_COLUMNS.length).map (fun i =>
    match row.get? (3 + i) with
    | some (some vis) => if vis = 1 then 1 else 0
    | _ => 0)

/-- The schema dispatch inside `_load_existing_csv`'s row loop, producing
the checkbox list for one row. With a falsy header the checkbox list
stays empty. -/
def rowCheckboxState (header : List String) (row : Row) : Except PyErr (List Int) :=
  if header.isEmpty then .ok []
  else if isNewSchema header then readRowNewCells header row STRUCTURE_COLUMNS
  else if isOldSchema header then readRowOldCells row STRUCTURE_COLUMNS 3
  else .ok (readRowVeryOld row)

/-- The row loop of `_load_existing_csv`. A `ValueError` from the first
three cells skips the row (`except ValueError: continue`); any other
exception — notably from value cells in the NEW and OLD schemas —
escapes to the function-level `except Exception`, which shows a warning
and stops, keeping the entries hydrated so far. -/
def loadRows (header : List String) : List Row → Store → Store
  | [], st => st
  | row :: rest, st =>
    match parseRowKey row with
    | .error .valueError => loadRows header rest st
    | .error .indexError => st
    | .ok key =>
      match rowCheckboxState header row with
      | .error _ => st
      | .ok cbs => loadRows header rest (storeInsert st key cbs)

/-- `_load_existing_csv`: hydrate a fresh store (`open_folder` resets
`self.frame_states = {}` beforehand) from the header and body rows. -/
def loadExistingCsv (header : List String) (rows : List Row) : Store :=
  loadRows header rows []

/-! ### Baseline store and CSV writer -/

/-- The preload table `self.preload_df`, keyed by `(video, swallow)`.
A severity value is `some v` for a numeric value `v` and `none` for a
missing value (`NaN`, which Python propagates and `pd.notna` rejects).
In the program every severity list has exactly
`STRUCTURE_COLUMNS.length` entries (one per schema column). -/
abbrev Baseline := List ((Int × Int) × List (Option Int))

/-- `get_swallow_defaults`: the severity list of the first preload row
matching `(video, swallow)`, or `[0] * len(STRUCTURE_COLUMNS)` when none
matches (or no preload is loaded at all). -/
def get_swallow_defaults (b : Baseline) (video swallow : Int) : List (Option Int) :=
  match b.find? (fun p => p.1 = (video, swallow)) with
  | some p => p.2
  | none => List.replicate STRUCTURE_COLUMNS.length (some 0)

/-- The written header: `["video", "swallow", "frame"]` extended by
`s_sev, s_vis` for each structure in schema order. -/
def persistHeader : List String :=
  STRUCTURE_COLUMNS.foldl (fun h s => h ++ [s ++ "_sev", s ++ "_vis"]) ["video", "swallow", "frame"]

/-- One written severity cell:
`int(defaults[idx]) if pd.notna(defaults[idx]) else 0`. -/
def sevCell (d : Option Int) : Int :=
  match d with
  | some v => v
  | none => 0

/-- The interleaved `sev, vis` body cells of one written row, one pair per
structure (`for idx, s in enumerate(STRUCTURE_COLUMNS)`). -/
def persistCells (defaults : List (Option Int)) (checkbox_state : List Int) :
    Nat → List String → List Int
  | _, [] => []
  | idx, _ :: rest =>
    sevCell (defaults.getD idx (some 0)) ::
      (if checkbox_state.getD idx 0 = 1 then (1 : Int) else 0) ::
        persistCells defaults checkbox_state (idx + 1) rest

/-- One written body row for a store entry. -/
def persistRow (b : Baseline) (e : FrameKey × List Int) : List Int :=
  [e.1.1, e.1.2.1, e.1.2.2] ++
    persistCells (get_swallow_defaults b e.1.1 e.1.2.1) e.2 0 STRUCTURE_COLUMNS

/-- Python's ascending tuple order on keys, as the Boolean comparator used
to model `sorted(self.frame_states.items())` (the dict's keys are unique,
so the comparison never reaches the value component). -/
def keyLe (a b : FrameKey) : Bool :=
  decide (a.1 < b.1 ∨ (a.1 = b.1 ∧ (a.2.1 < b.2.1 ∨ (a.2.1 = b.2.1 ∧ a.2.2 ≤ b.2.2))))

/-- Strict ascending tuple order on keys. -/
def keyLt (a b : FrameKey) : Prop :=
  a.1 < b.1 ∨ (a.1 = b.1 ∧ (a.2.1 < b.2.1 ∨ (a.2.1 = b.2.1 ∧ a.2.2 < b.2.2)))

/-- The comparator on store entries behind `sorted(...)`. -/
def entryLe (a b : FrameKey × List Int) : Bool := keyLe a.1 b.1

/-- `persist_all`: the header plus one row per store entry, sorted
ascending by the `(video, swallow, frame)` tuple. -/
def persist_all (b : Baseline) (fs : Store) : List String × List (List Int) :=
  (persistHeader, (fs.mergeSort entryLe).map (fun e => persistRow b e))

/-! ### Navigation, range and the per-frame operations -/

/-- The navigation-relevant application state. `seq` is the parsed frame
key of every discovered image path, in the full-sequence order; it and
the derived total are fixed between folder openings. -/
structure AppState where
  seq : List FrameKey
  index : Int
  range_min : Int
  range_max : Int
  frame_states : Store
deriving DecidableEq

/-- `self.total`, always `len(self.image_paths)`. -/
def total (st : AppState) : Int := (st.seq.length : Int)

/-- The key parsed from `self.image_paths[i]`. In the program the index
is always kept inside `[0, total)` by `load_image` and the navigation
guards, so the fallback key is never produced. -/
def keyAt (seq : List FrameKey) (i : Int) : FrameKey :=
  seq.getD i.toNat (-1, -1, -1)

/-- `self.range_min <= idx <= self.range_max`. -/
def in_range_index (st : AppState) (idx : Int) : Prop :=
  st.range_min ≤ idx ∧ idx ≤ st.range_max

instance (st : AppState) (idx : Int) : Decidable (in_range_index st idx) := by
  unfold in_range_index; infer_instance

/-- The state effect of `load_image`: nothing when there is no folder,
nothing when the index has run past the end (the app quits), otherwise
clamp the index into the active range. Everything else in `load_image`
is display work plus the checkbox defaults of `resolveDefaultVector`. -/
def load_image_state (st : AppState) : AppState :=
  if total st = 0 then st
  else if total st ≤ st.index then st
  else if in_range_index st st.index then st
  else { st with index := max st.range_min (min st.index st.range_max) }

/-- `1 if checked == 1 else 0`. -/
def visOf (c : Int) : Int := if c = 1 then 1 else 0

/-- `1 if vis != defaults[i] else 0`. A missing severity (`NaN`) compares
unequal to every number in Python, so it always reads as overridden. -/
def overriddenOf (vis : Int) (d : Option Int) : Int :=
  match d with
  | some b => if vis = b then 0 else 1
  | none => 1

/-- `get_current_values`: read the checkbox list (one value per structure,
in schema order), derive the visibility and overridden vectors from the
swallow defaults, and write the raw checkbox list into the label store.
Returns `(video, swallow, frame, vis_vals, overridden_flags)` and the
updated state. -/
def get_current_values (b : Baseline) (st : AppState) (checks : List Int) :
    (Int × Int × Int × List Int × List Int) × AppState :=
  let key := keyAt st.seq st.index
  let defaults := get_swallow_defaults b key.1 key.2.1
  let checkbox_state := (List.range STRUCTURE_COLUMNS.length).map (fun i => checks.getD i 0)
  let vis_vals := checkbox_state.map visOf
  let overridden_flags := (List.range STRUCTURE_COLUMNS.length).map (fun i =>
    overriddenOf (visOf (checks.getD i 0)) (defaults.getD i (some 0)))
  ((key.1, key.2.1, key.2.2, vis_vals, overridden_flags),
    { st with frame_states := storeInsert st.frame_states key checkbox_state })

/-- The CSV file a navigation step may write: header and body rows. -/
abbrev CsvFile := List String × List (List Int)

/-- `apply_range` with the 0-based bounds already computed from the two
entry fields (the UI subtracts 1 from each). Out-of-bounds input is
rejected with an error message and no state change. -/
def apply_range (st : AppState) (newMin newMax : Int) : AppState :=
  if 0 ≤ newMin ∧ newMin ≤ newMax ∧ newMax < total st then
    let st1 := { st with range_min := newMin, range_max := newMax }
    let st2 := { st1 with index := if st1.index < st1.range_min then st1.range_min else st1.index }
    let st3 := { st2 with index := if st2.index > st2.range_max then st2.range_max else st2.index }
    load_image_state st3
  else st

/-- `clear_range`: reset the window to the full sequence. -/
def clear_range (st : AppState) : AppState :=
  load_image_state { st with range_min := 0, range_max := total st - 1 }

/-- `save_and_next`: persist the current frame's values (store write plus
a full CSV save), then advance unless already at `range_max`. -/
def save_and_next (b : Baseline) (st : AppState) (checks : List Int) :
    AppState × Option CsvFile :=
  if total st = 0 then (st, none)
  else
    let st1 := (get_current_values b st checks).2
    let out := persist_all b st1.frame_states
    let next := st.index + 1
    if st.range_max < next then (st1, some out)
    else (load_image_state { st1 with index := next }, some out)

/-- `prev_image`: a pure no-op at `range_min`, otherwise persist the
current frame's values and retreat. -/
def prev_image (b : Baseline) (st : AppState) (checks : List Int) :
    AppState × Option CsvFile :=
  if total st = 0 then (st, none)
  else if st.index ≤ st.range_min then (st, none)
  else
    let st1 := (get_current_values b st checks).2
    let out := persist_all b st1.frame_states
    let prev := st.index - 1
    if prev < st.range_min then (st1, some out)
    else (load_image_state { st1 with index := prev }, some out)

/-- `skip_to_index` with the 0-based target already computed from the
entry field. Rejects targets outside `[0, total)` or outside the active
range, with no state change; otherwise moves directly, writing nothing. -/
def skip_to_index (st : AppState) (target : Int) : AppState × Option CsvFile :=
  if target < 0 ∨ total st ≤ target then (st, none)
  else if ¬ in_range_index st target then (st, none)
  else (load_image_state { st with index := target }, none)

/-- The checkbox defaults chosen by `load_image` for the frame at sequence
position `p`: the stored list for its key when present, else (for `p > 0`)
the stored list of the previous frame's key with an all-zero fallback,
else all zeros. -/
def resolveDefaultVector (fs : Store) (seq : List FrameKey) (p : Nat) : List Int :=
  match storeLookup fs (seq.getD p (-1, -1, -1)) with
  | some v => v
  | none =>
    if 0 < p then
      match storeLookup fs (seq.getD (p - 1) (-1, -1, -1)) with
      | some v => v
      | none => List.replicate STRUCTURE_COLUMNS.length 0
    else List.replicate STRUCTURE_COLUMNS.length 0

/-! ### Dataset folder discovery

`open_folder` gathers
`sorted(glob(os.path.join(folder, "video*", "swallow*", "*frame_*.[Pp][Nn][Gg]")))`.
Candidate files are modelled by their folder-relative paths as character
lists; each glob component is matched against one path component, where
`*` matches any character sequence, a class matches one listed character,
and a component pattern starting with `*` does not match a hidden name
(one starting with a dot), as in Python's `glob`. -/

/-- One element of a glob component pattern. -/
inductive GlobElem where
  | lit (c : Char)
  | star
  | cls (cs : List Char)
deriving DecidableEq

/-- Component-level glob matching (`*` never crosses a `/`, and path
components contain no `/` by construction). -/
def globMatch : List GlobElem → List Char → Bool
  | [], s => s.isEmpty
  | .lit c :: ps, s =>
    match s with
    | [] => false
    | x :: xs => decide (c = x) && globMatch ps xs
  | .cls cs :: ps, s =>
    match s with
    | [] => false
    | x :: xs => cs.contains x && globMatch ps xs
  | .star :: ps, s => s.tails.any (fun t => globMatch ps t)

/-- The literal elements of a string. -/
def litPattern (s : String) : List GlobElem := s.toList.map .lit

/-- The third glob component, `*frame_*.[Pp][Nn][Gg]`. -/
def fnamePattern : List GlobElem :=
  [.star] ++ litPattern "frame_" ++
    [.star, .lit '.', .cls ['P', 'p'], .cls ['N', 'n'], .cls ['G', 'g']]

/-- Split a relative path into its `/`-separated components. -/
def splitSlash : List Char → List (List Char)
  | [] => [[]]
  | c :: rest =>
    if c = '/' then [] :: splitSlash rest
    else
      match splitSlash rest with
      | [] => [[c]]
      | comp :: comps => (c :: comp) :: comps

/-- Whether a folder-relative path is matched by the discovery glob
`video*/swallow*/*frame_*.[Pp][Nn][Gg]` (a hidden file name is never
matched by the starred third component). -/
def matchesGlob (p : List Char) : Bool :=
  match splitSlash p with
  | [d1, d2, f] =>
    globMatch (litPattern "video" ++ [.star]) d1 &&
    globMatch (litPattern "swallow" ++ [.star]) d2 &&
    decide (f.head? ≠ some '.') &&
    globMatch fnamePattern f
  | _ => false

/-- Python's lexicographic string order (by code point), as a Boolean
comparator; `sorted` on the glob results uses it. -/
def charListLe : List Char → List Char → Bool
  | [], _ => true
  | _ :: _, [] => false
  | a :: as, b :: bs => if a = b then charListLe as bs else decide (a < b)

/-- The frame discovery of `open_folder`: the glob matches among the
folder's files, in sorted (lexical) order. -/
def open_folder_paths (files : List (List Char)) : List (List Char) :=
  (files.filter matchesGlob).mergeSort charListLe

/-- Modelled from the spec: a path of the shape
`video<N>/swallow<M>/*frame_<F>.<ext>` where `N`, `M`, `F` are digit
runs, the starred part stays inside the last component and is not a
hidden name, and the extension satisfies `extOk`. -/
def specFramePathWith (extOk : List Char → Prop) (p : List Char) : Prop :=
  ∃ nd md pre fd ext,
    nd ≠ [] ∧ (∀ c ∈ nd, c.isDigit) ∧
    md ≠ [] ∧ (∀ c ∈ md, c.isDigit) ∧
    fd ≠ [] ∧ (∀ c ∈ fd, c.isDigit) ∧
    '/' ∉ pre ∧ pre.head? ≠ some '.' ∧
    extOk ext ∧
    p = "video".toList ++ nd ++ '/' :: ("swallow".toList ++ md ++ '/' ::
      (pre ++ "frame_".toList ++ fd ++ '.' :: ext))

/-- Modelled from the spec: the extension `png` in any letter case. -/
def specExtPng (ext : List Char) : Prop :=
  ∃ c1 c2 c3, ext = [c1, c2, c3] ∧
    (c1 = 'p' ∨ c1 = 'P') ∧ (c2 = 'n' ∨ c2 = 'N') ∧ (c3 = 'g' ∨ c3 = 'G')

/-- Modelled from the spec: the extension `jpg` in any letter case. -/
def specExtJpg (ext : List Char) : Prop :=
  ∃ c1 c2 c3, ext = [c1, c2, c3] ∧
    (c1 = 'j' ∨ c1 = 'J') ∧ (c2 = 'p' ∨ c2 = 'P') ∧ (c3 = 'g' ∨ c3 = 'G')

/-- Modelled from the spec: the extension `jpeg` in any letter case. -/
def specExtJpeg (ext : List Char) : Prop :=
  ∃ c1 c2 c3 c4, ext = [c1, c2, c3, c4] ∧
    (c1 = 'j' ∨ c1 = 'J') ∧ (c2 = 'p' ∨ c2 = 'P') ∧
    (c3 = 'e' ∨ c3 = 'E') ∧ (c4 = 'g' ∨ c4 = 'G')

/-- Modelled from the spec: `png`, `jpg` or `jpeg` in any letter case. -/
def specExt (ext : List Char) : Prop :=
  specExtPng ext ∨ specExtJpg ext ∨ specExtJpeg ext

/-- Modelled from the spec: the full claimed discovery pattern
`video<N>/swallow<M>/*frame_<F>.<png|jpg|jpeg>`. -/
def specFramePath (p : List Char) : Prop :=
  specFramePathWith specExt p

/-- The NEW-schema row loop with the header lookups erased: the purely
positional reading that remains once every `s_vis` lookup succeeds.
`STRUCTURE_COLUMNS.indexOf s` is the structure's position `i` in the
fixed schema, so the severity cell sits at `3 + 2*i` and the visibility
cell at `3 + 2*i + 1`. -/
def readVisPositional (row : Row) : List String → Except PyErr (List Int)
  | [] => .ok []
  | s :: rest => do
    let base := 3 + 2 * (STRUCTURE_COLUMNS.indexOf s)
    let sevC ← getCell row base
    let _ ← cellInt sevC
    let visC ← getCell row (base + 1)
    let vis ← cellInt visC
    let tail ← readVisPositional row rest
    return (if vis = 1 then 1 else 0) :: tail

/-! ## General helper lemmas -/

/-- Peeling one element off a list of known positive length. -/
theorem exists_cons_of_length_succ {α : Type} (l : List α) (n : Nat) (h : l.length = n + 1) :
    ∃ x xs, l = x :: xs ∧ xs.length = n := by
  cases l with
  | nil => simp at h
  | cons x xs => exact ⟨x, xs, rfl, by simpa using h⟩

theorem headerIndex_ok_of_mem {name : String} {header : List String} (h : name ∈ header) :
    ∃ i, headerIndex header name = .ok i := by
  induction header with
  | nil => simp at h
  | cons x xs ih =>
    by_cases hx : x = name
    · exact ⟨0, by simp [headerIndex, hx]⟩
    · rcases List.mem_cons.mp h with hh | ht
      · exact absurd hh.symm hx
      · obtain ⟨i, hi⟩ := ih ht
        exact ⟨i + 1, by simp [headerIndex, hx, hi, Except.map]⟩

theorem storeLookup_nil (k : FrameKey) : storeLookup [] k = none := rfl

theorem storeLookup_cons (p : FrameKey × List Int) (st : Store) (k : FrameKey) :
    storeLookup (p :: st) k = if p.1 = k then some p.2 else storeLookup st k := by
  unfold storeLookup
  rw [List.find?_cons]
  by_cases h : p.1 = k <;> simp [h]

theorem storeLookup_eq_none_of_not_mem {st : Store} {k : FrameKey}
    (h : k ∉ st.map Prod.fst) : storeLookup st k = none := by
  induction st with
  | nil => rfl
  | cons p ps ih =>
    rw [storeLookup_cons]
    simp only [List.map_cons, List.mem_cons] at h
    push_neg at h
    simp [Ne.symm h.1, ih h.2]

theorem storeLookup_map_replace (st : Store) (k : FrameKey) (v : List Int) (k' : FrameKey) :
    storeLookup (st.map (fun p => if p.1 = k then (k, v) else p)) k' =
      if k' = k then (storeLookup st k).map (fun _ => v) else storeLookup st k' := by
  induction st with
  | nil => by_cases h : k' = k <;> simp [storeLookup_nil, h]
  | cons p ps ih =>
    by_cases hp : p.1 = k
    · by_cases hk : k' = k
      · subst hk
        simp [List.map_cons, storeLookup_cons, hp, ih]
      · have hk2 : k ≠ k' := fun h => hk h.symm
        have hpk2 : p.1 ≠ k' := hp ▸ hk2
        simp [List.map_cons, storeLookup_cons, hp, hk, hk2, hpk2, ih]
    · by_cases hk : k' = k
      · subst hk
        simp [List.map_cons, storeLookup_cons, hp, ih]
      · by_cases hpk2 : p.1 = k' <;>
          simp [List.map_cons, storeLookup_cons, hp, hpk2, hk, ih]

theorem storeLookup_isSome_of_mem {st : Store} {k : FrameKey}
    (h : k ∈ st.map Prod.fst) : (storeLookup st k).isSome := by
  induction st with
  | nil => simp at h
  | cons p ps ih =>
    rw [storeLookup_cons]
    by_cases hp : p.1 = k
    · simp [hp]
    · simp only [List.map_cons, List.mem_cons] at h
      rcases h with h | h
      · exact absurd h.symm hp
      · simp [hp, ih h]

/-- Updating a key in a Python dict: the new value is found at that key,
every other key is untouched. -/
theorem storeLookup_insert (st : Store) (k : FrameKey) (v : List Int) (k' : FrameKey) :
    storeLookup (storeInsert st k v) k' = if k' = k then some v else storeLookup st k' := by
  unfold storeInsert
  by_cases hmem : st.any (fun p => p.1 = k)
  · rw [if_pos hmem, storeLookup_map_replace]
    by_cases hk : k' = k
    · obtain ⟨p, hp, hpk⟩ := List.any_eq_true.mp hmem
      have : k ∈ st.map Prod.fst := List.mem_map.mpr ⟨p, hp, by simpa using hpk⟩
      obtain ⟨w, hw⟩ := Option.isSome_iff_exists.mp (storeLookup_isSome_of_mem this)
      simp [hk, hw]
    · simp [hk]
  · rw [if_neg hmem]
    have hnot : k ∉ st.map Prod.fst := by
      intro hk
      obtain ⟨p, hp, hpk⟩ := List.mem_map.mp hk
      exact hmem (List.any_eq_true.mpr ⟨p, hp, by simp [hpk]⟩)
    induction st with
    | nil =>
      by_cases h : k' = k
      · simp [storeLookup_nil, storeLookup_cons, h]
      · simp [storeLookup_nil, storeLookup_cons, h, Ne.symm h]
    | cons p ps ih =>
      rw [List.cons_append, storeLookup_cons, storeLookup_cons]
      have hpk : p.1 ≠ k := by
        intro h
        exact hnot (by simp [h])
      have ihe : storeLookup (ps ++ [(k, v)]) k' = if k' = k then some v else storeLookup ps k' :=
        ih (fun hany => hmem (by simp [List.any_cons, hany]))
          (fun hk => hnot (by simp [hk]))
      by_cases hp : p.1 = k'
      · have : ¬ (k' = k) := fun h => hpk (hp.trans h)
        simp [hp, this]
      · simp only [hp, if_false, ihe]

theorem storeLookup_eq_none_iff (st : Store) (k : FrameKey) :
    storeLookup st k = none ↔ ∀ p ∈ st, p.1 ≠ k := by
  unfold storeLookup
  rw [Option.map_eq_none', List.find?_eq_none]
  simp

theorem storeLookup_eq_some_iff {st : Store} (h : (st.map Prod.fst).Nodup)
    (k : FrameKey) (v : List Int) :
    storeLookup st k = some v ↔ (k, v) ∈ st := by
  induction st with
  | nil => simp [storeLookup_nil]
  | cons p ps ih =>
    simp only [List.map_cons, List.nodup_cons] at h
    rw [storeLookup_cons]
    by_cases hp : p.1 = k
    · subst hp
      simp only [if_pos rfl, List.mem_cons]
      constructor
      · intro hv
        injection hv with hv
        left
        rw [← hv]
      · intro hv
        rcases hv with hv | hv
        · have h2 : v = p.2 := congrArg Prod.snd hv
          simp [h2]
        · exact absurd (List.mem_map.mpr ⟨_, hv, rfl⟩) h.1
    · rw [if_neg hp, ih h.2, List.mem_cons]
      constructor
      · exact Or.inr
      · intro hv
        rcases hv with hv | hv
        · exact absurd (congrArg Prod.fst hv.symm) hp
        · exact hv

/-- Dictionary lookup only depends on the entry set when keys are unique. -/
theorem storeLookup_perm {st st' : Store} (hp : st.Perm st')
    (h : (st.map Prod.fst).Nodup) (k : FrameKey) :
    storeLookup st k = storeLookup st' k := by
  have h' : (st'.map Prod.fst).Nodup := ((hp.map Prod.fst).nodup_iff).mp h
  cases hv : storeLookup st k with
  | some v =>
    exact ((storeLookup_eq_some_iff h' k v).mpr
      (hp.mem_iff.mp ((storeLookup_eq_some_iff h k v).mp hv))).symm
  | none =>
    refine ((storeLookup_eq_none_iff st' k).mpr ?_).symm
    intro p hpmem
    exact (storeLookup_eq_none_iff st k).mp hv p (hp.mem_iff.mpr hpmem)

/-- Folding dict updates over an entry list with unique keys: the final
dictionary answers from the entry list first, the start dictionary
otherwise. -/
theorem storeLookup_foldl_insert (es : Store) : ∀ (st0 : Store) (k : FrameKey),
    (es.map Prod.fst).Nodup →
    storeLookup (es.foldl (fun acc p => storeInsert acc p.1 p.2) st0) k =
      (match storeLookup es k with
       | some v => some v
       | none => storeLookup st0 k) := by
  induction es with
  | nil =>
    intro st0 k _
    simp [storeLookup_nil]
  | cons p ps ih =>
    intro st0 k h
    simp only [List.map_cons, List.nodup_cons] at h
    rw [List.foldl_cons, ih _ k h.2, storeLookup_cons]
    by_cases hk : p.1 = k
    · subst hk
      rw [storeLookup_eq_none_of_not_mem h.1]
      simp [storeLookup_insert]
    · rw [if_neg hk]
      cases hps : storeLookup ps k with
      | some v => rfl
      | none => simp [storeLookup_insert, Ne.symm hk]

/-- `visOf` is its own inverse on 0/1 values. -/
theorem visOf_visOf_eq {c : Int} (h : c = 0 ∨ c = 1) : visOf (visOf c) = c := by
  rcases h with rfl | rfl <;> rfl

/-- Normalizing a 0/1 checkbox list of schema length is the identity. -/
theorem visNorm_eq_self {cbs : List Int} (hlen : cbs.length = STRUCTURE_COLUMNS.length)
    (h01 : ∀ c ∈ cbs, c = 0 ∨ c = 1) :
    (List.range STRUCTURE_COLUMNS.length).map (fun i => visOf (visOf (cbs.getD i 0))) = cbs := by
  apply List.ext_getElem?
  intro n
  by_cases hn : n < STRUCTURE_COLUMNS.length
  · have hn' : n < cbs.length := by rw [hlen]; exact hn
    rw [List.getElem?_map, List.getElem?_range hn, List.getElem?_eq_getElem hn']
    have hgetD : cbs.getD n 0 = cbs[n] := List.getD_eq_getElem cbs 0 hn'
    simp only [Option.map_some', hgetD]
    rw [visOf_visOf_eq (h01 _ (List.getElem_mem hn'))]
  · have hlen2 : (List.range STRUCTURE_COLUMNS.length).length ≤ n := by
      simpa using Nat.le_of_not_lt hn
    rw [List.getElem?_map, List.getElem?_eq_none hlen2, List.getElem?_eq_none]
    · rfl
    · rw [hlen]; exact Nat.le_of_not_lt hn

/-- Reading back one written row under the written header: the key parses
and the checkbox list is the doubly normalized stored list. -/
theorem persistRow_parse_key (b : Baseline) (e : FrameKey × List Int) :
    parseRowKey ((persistRow b e).map some) = .ok e.1 := rfl

theorem persistRow_reads_back (b : Baseline) (e : FrameKey × List Int) :
    rowCheckboxState persistHeader ((persistRow b e).map some) =
      .ok ((List.range STRUCTURE_COLUMNS.length).map (fun i => visOf (visOf (e.2.getD i 0)))) := rfl

/-- Loading the written body rows replays the entries as dict updates. -/
theorem loadRows_persist (b : Baseline) : ∀ (es : Store) (st : Store),
    (∀ e ∈ es, e.2.length = STRUCTURE_COLUMNS.length ∧ ∀ c ∈ e.2, c = 0 ∨ c = 1) →
    loadRows persistHeader (es.map (fun e => (persistRow b e).map some)) st =
      es.foldl (fun acc p => storeInsert acc p.1 p.2) st := by
  intro es
  induction es with
  | nil => intro st _; rfl
  | cons e es ih =>
    intro st h
    rw [List.map_cons, List.foldl_cons]
    simp only [loadRows, persistRow_parse_key, persistRow_reads_back]
    have he := h e (List.mem_cons_self e es)
    rw [visNorm_eq_self he.1 he.2]
    exact ih _ (fun e' he' => h e' (List.mem_cons_of_mem e he'))

/-! ## C1: error handling of malformed rows in `_load_existing_csv` -/

/-- C1 counterexample: under the current schema, a single row with one
unparsable visibility cell aborts the whole hydration — the later,
perfectly well-formed row `1,1,2,0,...,0` is lost, although on its own
it hydrates fine. The claim that a malformed row is handled locally and
hydration of all remaining rows continues is therefore false. -/
theorem C1_counterexample :
    loadExistingCsv persistHeader
        [(some 1) :: (some 1) :: (some 1) :: (some 0) :: none :: List.replicate 22 (some 0),
         (some 1) :: (some 1) :: (some 2) :: List.replicate 24 (some 0)] = [] ∧
    loadExistingCsv persistHeader
        [(some 1) :: (some 1) :: (some 2) :: List.replicate 24 (some 0)] =
      [((1, 1, 2), List.replicate 12 0)] := by
  constructor <;> rfl

/-- C1 (amended): a row whose first three cells are present but fail to
parse as integers raises `ValueError`, is skipped, and hydration
continues with the remaining rows; in legacy schema C the per-value
`try/except` coerces any unparsable or missing value cell to 0, so that
schema never aborts; but a row whose key cells are parsable while some
value cell fails (current or legacy-B schema), or whose key cells are
missing altogether, stops hydration there, keeping only the rows already
hydrated. -/
theorem C1_row_errors (header : List String) (rows : List Row) (st : Store) (row : Row) :
    (parseRowKey row = .error .valueError →
      loadRows header (row :: rows) st = loadRows header rows st) ∧
    (header ≠ [] → isNewSchema header = false → isOldSchema header = false →
      rowCheckboxState header row = .ok (readRowVeryOld row)) ∧
    (∀ i, i < STRUCTURE_COLUMNS.length → row.get? (3 + i) = some none →
      (readRowVeryOld row).get? i = some 0) ∧
    (∀ key e, parseRowKey row = .ok key → rowCheckboxState header row = .error e →
      loadRows header (row :: rows) st = st) := by
  refine ⟨?_, ?_, ?_, ?_⟩
  · intro h
    simp [loadRows, h]
  · intro h1 h2 h3
    have : header.isEmpty = false := by
      cases header with
      | nil => exact absurd rfl h1
      | cons a l => rfl
    simp [rowCheckboxState, this, h2, h3]
  · intro i hi hcell
    unfold readRowVeryOld
    simp only [List.get?_eq_getElem?] at hcell ⊢
    rw [List.getElem?_map, List.getElem?_range hi]
    simp [hcell]
  · intro key e h1 h2
    simp [loadRows, h1, h2]

/-- C1 witness: the amended behaviour at concrete inputs — a skipped
bad-key row under legacy schema C, the no-abort guarantee of schema C,
the per-cell coercion to 0, and the abort on a short row under the
current schema. -/
theorem C1_row_errors_witness :
    loadRows ["video", "swallow", "frame", "LPW_PPW"] [[some 1, none, some 2, none]] [] = [] ∧
    rowCheckboxState ["video", "swallow", "frame", "LPW_PPW"] [some 1, none, some 2, none] =
      .ok (readRowVeryOld [some 1, none, some 2, none]) ∧
    (readRowVeryOld [some 1, none, some 2, none]).get? 0 = some 0 ∧
    loadRows persistHeader [[some 1, some 1, some 1]] [((5, 5, 5), [])] = [((5, 5, 5), [])] := by
  refine ⟨?_, ?_, ?_, ?_⟩
  · exact ((C1_row_errors ["video", "swallow", "frame", "LPW_PPW"] [] []
      [some 1, none, some 2, none]).1 (by rfl)).trans rfl
  · exact (C1_row_errors ["video", "swallow", "frame", "LPW_PPW"] [] []
      [some 1, none, some 2, none]).2.1 (by decide) (by rfl) (by rfl)
  · exact (C1_row_errors ["video", "swallow", "frame", "LPW_PPW"] [] []
      [some 1, none, some 2, none]).2.2.1 0 (by decide) (by rfl)
  · exact (C1_row_errors persistHeader [] [((5, 5, 5), [])]
      [some 1, some 1, some 1]).2.2.2 (1, 1, 1) .indexError (by rfl) (by rfl)

/-! ## C2: write/read round trip under the current schema -/

/-- C2: serializing a label store whose entries are 0/1 vectors of schema
length with `persist_all` and hydrating the result back through
`_load_existing_csv` (which classifies the written header as the current
schema) reproduces exactly the original key-to-vector mapping. -/
theorem C2_roundtrip (b : Baseline) (fs : Store)
    (hnodup : (fs.map Prod.fst).Nodup)
    (hvec : ∀ e ∈ fs, e.2.length = STRUCTURE_COLUMNS.length ∧ ∀ c ∈ e.2, c = 0 ∨ c = 1)
    (k : FrameKey) :
    storeLookup
        (loadExistingCsv (persist_all b fs).1 ((persist_all b fs).2.map (fun r => r.map some))) k =
      storeLookup fs k := by
  have hperm : (fs.mergeSort entryLe).Perm fs := List.mergeSort_perm fs entryLe
  have hnodup' : ((fs.mergeSort entryLe).map Prod.fst).Nodup :=
    ((hperm.map Prod.fst).nodup_iff).mpr hnodup
  have hvec' : ∀ e ∈ fs.mergeSort entryLe,
      e.2.length = STRUCTURE_COLUMNS.length ∧ ∀ c ∈ e.2, c = 0 ∨ c = 1 :=
    fun e he => hvec e (List.mem_mergeSort.mp he)
  show storeLookup
      (loadRows persistHeader
        (((fs.mergeSort entryLe).map (fun e => persistRow b e)).map (fun r => r.map some)) []) k = _
  rw [List.map_map]
  have hcomp : ((fun r : List Int => r.map some) ∘ fun e => persistRow b e) =
      fun e => (persistRow b e).map some := rfl
  rw [hcomp, loadRows_persist b _ _ hvec', storeLookup_foldl_insert _ _ _ hnodup',
    storeLookup_perm hperm hnodup' k]
  cases storeLookup fs k <;> rfl

/-- C2 witness: the round trip at a small concrete store and baseline. -/
theorem C2_roundtrip_witness :
    storeLookup
        (loadExistingCsv
          (persist_all [((1, 2), [some 3, none, some 0, some 0, some 0, some 0, some 0, some 0,
            some 0, some 0, some 0, some 0])]
            [((1, 2, 3), [0, 1, 0, 0, 0, 0, 0, 0, 0, 0, 0, 1])]).1
          ((persist_all [((1, 2), [some 3, none, some 0, some 0, some 0, some 0, some 0, some 0,
            some 0, some 0, some 0, some 0])]
            [((1, 2, 3), [0, 1, 0, 0, 0, 0, 0, 0, 0, 0, 0, 1])]).2.map (fun r => r.map some)))
        (1, 2, 3) =
      storeLookup [((1, 2, 3), [0, 1, 0, 0, 0, 0, 0, 0, 0, 0, 0, 1])] (1, 2, 3) :=
  C2_roundtrip
    [((1, 2), [some 3, none, some 0, some 0, some 0, some 0, some 0, some 0,
      some 0, some 0, some 0, some 0])]
    [((1, 2, 3), [0, 1, 0, 0, 0, 0, 0, 0, 0, 0, 0, 1])]
    (by decide) (by decide) (1, 2, 3)

/-! ## C3: default propagation -/

/-- C3: the defaults resolved for the frame at sequence position `p`:
its own stored vector when present; otherwise, for `p > 0`, the stored
vector of the previous frame's key with an all-zero fallback; and all
zeros at `p = 0`. `resolveDefaultVector` is a plain function of the
store, sequence and position, so the resolution mutates nothing. -/
theorem C3_resolve_default (fs : Store) (seq : List FrameKey) (p : Nat) (hp : p < seq.length) :
    (∀ v, storeLookup fs seq[p] = some v → resolveDefaultVector fs seq p = v) ∧
    (storeLookup fs seq[p] = none → 0 < p →
      resolveDefaultVector fs seq p =
        (storeLookup fs seq[p - 1]).getD (List.replicate STRUCTURE_COLUMNS.length 0)) ∧
    (storeLookup fs seq[p] = none → p = 0 →
      resolveDefaultVector fs seq p = List.replicate STRUCTURE_COLUMNS.length 0) := by
  have hg : seq.getD p (-1, -1, -1) = seq[p] := List.getD_eq_getElem seq _ hp
  refine ⟨?_, ?_, ?_⟩
  · intro v hv
    unfold resolveDefaultVector
    rw [hg, hv]
  · intro hnone hpos
    have hg' : seq.getD (p - 1) (-1, -1, -1) = seq[p - 1] :=
      List.getD_eq_getElem seq _ (by omega)
    unfold resolveDefaultVector
    rw [hg, hnone, if_pos hpos, hg']
    cases storeLookup fs seq[p - 1] <;> rfl
  · intro hnone hp0
    unfold resolveDefaultVector
    rw [hg, hnone, hp0]
    rfl

/-- C3 witness: carry-forward at position 1 from the stored entry of
position 0. -/
theorem C3_resolve_default_witness :
    resolveDefaultVector [((7, 8, 9), [1, 0, 0, 0, 0, 0, 0, 0, 0, 0, 0, 0])]
        [(7, 8, 9), (7, 8, 10)] 1 =
      (storeLookup [((7, 8, 9), [1, 0, 0, 0, 0, 0, 0, 0, 0, 0, 0, 0])] (7, 8, 9)).getD
        (List.replicate STRUCTURE_COLUMNS.length 0) :=
  (C3_resolve_default [((7, 8, 9), [1, 0, 0, 0, 0, 0, 0, 0, 0, 0, 0, 0])]
    [(7, 8, 9), (7, 8, 10)] 1 (by decide)).2.1 (by decide) (by decide)

/-! ## C4: override computation and the label-store write path -/

theorem visOf_eq_self {c : Int} (h : c = 0 ∨ c = 1) : visOf c = c := by
  rcases h with rfl | rfl <;> rfl

/-- Reading a schema-length list back out of its positional `getD` view. -/
theorem range_map_getD {l : List Int} (h : l.length = STRUCTURE_COLUMNS.length) :
    (List.range STRUCTURE_COLUMNS.length).map (fun i => l.getD i 0) = l := by
  apply List.ext_getElem?
  intro n
  by_cases hn : n < STRUCTURE_COLUMNS.length
  · have hn' : n < l.length := by rw [h]; exact hn
    rw [List.getElem?_map, List.getElem?_range hn, List.getElem?_eq_getElem hn',
      Option.map_some']
    rw [List.getD_eq_getElem l 0 hn']
  · have h1 : (List.range STRUCTURE_COLUMNS.length).length ≤ n := by
      simpa using Nat.le_of_not_lt hn
    rw [List.getElem?_map, List.getElem?_eq_none h1, List.getElem?_eq_none]
    · rfl
    · rw [h]; exact Nat.le_of_not_lt hn

theorem map_visOf_eq_self {l : List Int} (h : ∀ c ∈ l, c = 0 ∨ c = 1) : l.map visOf = l := by
  induction l with
  | nil => rfl
  | cons c cs ih =>
    rw [List.map_cons, visOf_eq_self (h c (List.mem_cons_self c cs)),
      ih (fun x hx => h x (List.mem_cons_of_mem c hx))]

theorem load_image_state_frame_states (s : AppState) :
    (load_image_state s).frame_states = s.frame_states := by
  unfold load_image_state
  split
  · rfl
  · split
    · rfl
    · split
      · rfl
      · rfl

/-- C4: with a schema-length 0/1 checkbox list, `get_current_values`
returns the supplied visibility vector verbatim, sets each overridden
flag to 1 exactly when the visibility differs from the baseline severity
(0 when the baseline has no row for the `(video, swallow)` key), and
writes exactly the entry for the current frame's key into the label
store; and no other engine operation writes the store at all. -/
theorem C4_override (b : Baseline) (st : AppState) (checks : List Int)
    (hlen : checks.length = STRUCTURE_COLUMNS.length)
    (h01 : ∀ c ∈ checks, c = 0 ∨ c = 1) :
    (get_current_values b st checks).1.2.2.2.1 = checks ∧
    (b.find? (fun q => q.1 = ((keyAt st.seq st.index).1, (keyAt st.seq st.index).2.1)) = none →
      ∀ i, i < STRUCTURE_COLUMNS.length →
        (get_current_values b st checks).1.2.2.2.2.get? i =
          some (if checks.getD i 0 = 0 then 0 else 1)) ∧
    (∀ pr, b.find? (fun q => q.1 = ((keyAt st.seq st.index).1, (keyAt st.seq st.index).2.1)) =
        some pr →
      ∀ i, i < STRUCTURE_COLUMNS.length → ∀ bi : Int, pr.2.getD i (some 0) = some bi →
        (get_current_values b st checks).1.2.2.2.2.get? i =
          some (if checks.getD i 0 = bi then 0 else 1)) ∧
    (get_current_values b st checks).2.frame_states =
      storeInsert st.frame_states (keyAt st.seq st.index) checks ∧
    storeLookup (get_current_values b st checks).2.frame_states (keyAt st.seq st.index) =
      some checks ∧
    (∀ k', k' ≠ keyAt st.seq st.index →
      storeLookup (get_current_values b st checks).2.frame_states k' =
        storeLookup st.frame_states k') ∧
    (∀ s' t, (skip_to_index s' t).1.frame_states = s'.frame_states) ∧
    (∀ s' lo hi, (apply_range s' lo hi).frame_states = s'.frame_states) ∧
    (∀ s', (clear_range s').frame_states = s'.frame_states) ∧
    (∀ s', (load_image_state s').frame_states = s'.frame_states) ∧
    (∀ s' cks, (save_and_next b s' cks).1.frame_states = s'.frame_states ∨
      (save_and_next b s' cks).1.frame_states = (get_current_values b s' cks).2.frame_states) ∧
    (∀ s' cks, (prev_image b s' cks).1.frame_states = s'.frame_states ∨
      (prev_image b s' cks).1.frame_states = (get_current_values b s' cks).2.frame_states) := by
  have hcb : (List.range STRUCTURE_COLUMNS.length).map (fun i => checks.getD i 0) = checks :=
    range_map_getD hlen
  have hmem : ∀ i, i < STRUCTURE_COLUMNS.length → checks.getD i 0 ∈ checks := by
    intro i hi
    have hi' : i < checks.length := by rw [hlen]; exact hi
    rw [List.getD_eq_getElem checks 0 hi']
    exact List.getElem_mem hi'
  refine ⟨?_, ?_, ?_, ?_, ?_, ?_, ?_, ?_, ?_, load_image_state_frame_states, ?_, ?_⟩
  · show ((List.range STRUCTURE_COLUMNS.length).map (fun i => checks.getD i 0)).map visOf = checks
    rw [hcb]
    exact map_visOf_eq_self h01
  · intro hfind i hi
    show ((List.range STRUCTURE_COLUMNS.length).map (fun i =>
      overriddenOf (visOf (checks.getD i 0))
        ((get_swallow_defaults b (keyAt st.seq st.index).1
          (keyAt st.seq st.index).2.1).getD i (some 0)))).get? i = _
    have hdef : get_swallow_defaults b (keyAt st.seq st.index).1 (keyAt st.seq st.index).2.1 =
        List.replicate STRUCTURE_COLUMNS.length (some 0) := by
      unfold get_swallow_defaults
      rw [hfind]
    rw [List.get?_eq_getElem?, List.getElem?_map, List.getElem?_range hi, hdef]
    have hrep : (List.replicate STRUCTURE_COLUMNS.length (some (0 : Int))).getD i (some 0) =
        some 0 := by
      rw [List.getD_eq_getElem _ _ (by simpa using hi)]
      simp
    simp only [Option.map_some']
    rw [hrep, visOf_eq_self (h01 _ (hmem i hi))]
    rfl
  · intro pr hfind i hi bi hbi
    show ((List.range STRUCTURE_COLUMNS.length).map (fun i =>
      overriddenOf (visOf (checks.getD i 0))
        ((get_swallow_defaults b (keyAt st.seq st.index).1
          (keyAt st.seq st.index).2.1).getD i (some 0)))).get? i = _
    have hdef : get_swallow_defaults b (keyAt st.seq st.index).1 (keyAt st.seq st.index).2.1 =
        pr.2 := by
      unfold get_swallow_defaults
      rw [hfind]
    rw [List.get?_eq_getElem?, List.getElem?_map, List.getElem?_range hi, hdef]
    simp only [Option.map_some']
    rw [hbi, visOf_eq_self (h01 _ (hmem i hi))]
    rfl
  · show storeInsert st.frame_states (keyAt st.seq st.index)
      ((List.range STRUCTURE_COLUMNS.length).map (fun i => checks.getD i 0)) = _
    rw [hcb]
  · show storeLookup (storeInsert st.frame_states (keyAt st.seq st.index)
      ((List.range STRUCTURE_COLUMNS.length).map (fun i => checks.getD i 0)))
        (keyAt st.seq st.index) = some checks
    rw [hcb, storeLookup_insert, if_pos rfl]
  · intro k' hk'
    show storeLookup (storeInsert st.frame_states (keyAt st.seq st.index)
      ((List.range STRUCTURE_COLUMNS.length).map (fun i => checks.getD i 0))) k' = _
    rw [hcb, storeLookup_insert, if_neg hk']
  · intro s' t
    unfold skip_to_index
    split
    · rfl
    · split
      · rfl
      · exact load_image_state_frame_states _
  · intro s' lo hi
    unfold apply_range
    split
    · exact load_image_state_frame_states _
    · rfl
  · intro s'
    exact load_image_state_frame_states _
  · intro s' cks
    unfold save_and_next
    by_cases h0 : total s' = 0
    · rw [if_pos h0]
      exact Or.inl rfl
    · rw [if_neg h0]
      by_cases hnext : s'.range_max < s'.index + 1
      · simp only [if_pos hnext]
        exact Or.inr trivial
      · simp only [if_neg hnext]
        exact Or.inr (load_image_state_frame_states _)
  · intro s' cks
    unfold prev_image
    by_cases h0 : total s' = 0
    · rw [if_pos h0]
      exact Or.inl rfl
    · rw [if_neg h0]
      by_cases hmin : s'.index ≤ s'.range_min
      · rw [if_pos hmin]
        exact Or.inl rfl
      · rw [if_neg hmin]
        by_cases hprev : s'.index - 1 < s'.range_min
        · simp only [if_pos hprev]
          exact Or.inr trivial
        · simp only [if_neg hprev]
          exact Or.inr (load_image_state_frame_states _)

/-- C4 witness: override computation at a concrete state, baseline and
checkbox list. -/
theorem C4_override_witness :
    (get_current_values
        [((1, 2), [some 2, none, some 0, some 0, some 0, some 0, some 0, some 0,
          some 0, some 0, some 0, some 0])]
        { seq := [(1, 2, 3)], index := 0, range_min := 0, range_max := 0, frame_states := [] }
        [1, 0, 0, 0, 0, 0, 0, 0, 0, 0, 0, 0]).1.2.2.2.1 =
      [1, 0, 0, 0, 0, 0, 0, 0, 0, 0, 0, 0] ∧
    storeLookup
        (get_current_values
          [((1, 2), [some 2, none, some 0, some 0, some 0, some 0, some 0, some 0,
            some 0, some 0, some 0, some 0])]
          { seq := [(1, 2, 3)], index := 0, range_min := 0, range_max := 0, frame_states := [] }
          [1, 0, 0, 0, 0, 0, 0, 0, 0, 0, 0, 0]).2.frame_states
        (keyAt [(1, 2, 3)] 0) =
      some [1, 0, 0, 0, 0, 0, 0, 0, 0, 0, 0, 0] := by
  have h := C4_override
    [((1, 2), [some 2, none, some 0, some 0, some 0, some 0, some 0, some 0,
      some 0, some 0, some 0, some 0])]
    { seq := [(1, 2, 3)], index := 0, range_min := 0, range_max := 0, frame_states := [] }
    [1, 0, 0, 0, 0, 0, 0, 0, 0, 0, 0, 0] (by decide) (by decide)
  exact ⟨h.1, h.2.2.2.2.1⟩

/-! ## C7, C8, C9: the navigation and range model -/

theorem load_image_state_of_in_range (s : AppState) (h0 : ¬ total s = 0)
    (hlt : ¬ total s ≤ s.index) (hin : in_range_index s s.index) :
    load_image_state s = s := by
  unfold load_image_state
  rw [if_neg h0, if_neg hlt, if_pos hin]

/-- C7: `apply_range` rejects any request with `newMin < 0`,
`newMin > newMax` or `newMax ≥ total`, leaving the whole state (window
and current index included) unchanged; an accepted request installs the
new window and clamps the current index into it. -/
theorem C7_set_range (st : AppState) (newMin newMax : Int) :
    (¬ (0 ≤ newMin ∧ newMin ≤ newMax ∧ newMax < total st) →
      apply_range st newMin newMax = st) ∧
    ((0 ≤ newMin ∧ newMin ≤ newMax ∧ newMax < total st) →
      (apply_range st newMin newMax).range_min = newMin ∧
      (apply_range st newMin newMax).range_max = newMax ∧
      (apply_range st newMin newMax).index = max newMin (min st.index newMax) ∧
      newMin ≤ (apply_range st newMin newMax).index ∧
      (apply_range st newMin newMax).index ≤ newMax ∧
      (apply_range st newMin newMax).seq = st.seq ∧
      (apply_range st newMin newMax).frame_states = st.frame_states) := by
  constructor
  · intro h
    unfold apply_range
    rw [if_neg h]
  · intro h
    have key : apply_range st newMin newMax =
        load_image_state
          { st with
            range_min := newMin, range_max := newMax,
            index := (if (if st.index < newMin then newMin else st.index) > newMax then newMax
              else (if st.index < newMin then newMin else st.index)) } := by
      unfold apply_range
      rw [if_pos h]
    have hidx : (if (if st.index < newMin then newMin else st.index) > newMax then newMax
        else (if st.index < newMin then newMin else st.index)) =
          max newMin (min st.index newMax) := by
      rcases h with ⟨h1, h2, h3⟩
      split_ifs <;> omega
    have hmaxmin : newMin ≤ max newMin (min st.index newMax) ∧
        max newMin (min st.index newMax) ≤ newMax := by
      rcases h with ⟨h1, h2, h3⟩
      refine ⟨le_max_left _ _, ?_⟩
      rw [max_le_iff]
      exact ⟨h2, min_le_right _ _⟩
    rw [key, hidx]
    have hsame : load_image_state
        { st with
          range_min := newMin, range_max := newMax,
          index := max newMin (min st.index newMax) } =
        { st with
          range_min := newMin, range_max := newMax,
          index := max newMin (min st.index newMax) } := by
      apply load_image_state_of_in_range
      · show ¬ (st.seq.length : Int) = 0
        rcases h with ⟨h1, h2, h3⟩
        have h4 : (0 : Int) ≤ newMax := le_trans h1 h2
        unfold total at h3
        omega
      · show ¬ (st.seq.length : Int) ≤ max newMin (min st.index newMax)
        rcases h with ⟨h1, h2, h3⟩
        have h4 := hmaxmin.2
        unfold total at h3
        omega
      · exact ⟨hmaxmin.1, hmaxmin.2⟩
    rw [hsame]
    exact ⟨rfl, rfl, rfl, hmaxmin.1, hmaxmin.2, rfl, rfl⟩

/-- C7 witness: a rejected range request leaves the state untouched, an
accepted one installs the window and clamps the index. -/
theorem C7_set_range_witness :
    apply_range
        { seq := [(0, 0, 1), (0, 0, 2)], index := 0, range_min := 0, range_max := 1,
          frame_states := [] } 1 5 =
      { seq := [(0, 0, 1), (0, 0, 2)], index := 0, range_min := 0, range_max := 1,
        frame_states := [] } ∧
    (apply_range
        { seq := [(0, 0, 1), (0, 0, 2)], index := 0, range_min := 0, range_max := 1,
          frame_states := [] } 1 1).range_min = 1 ∧
    (apply_range
        { seq := [(0, 0, 1), (0, 0, 2)], index := 0, range_min := 0, range_max := 1,
          frame_states := [] } 1 1).index = max 1 (min 0 1) := by
  refine ⟨?_, ?_, ?_⟩
  · exact (C7_set_range
      { seq := [(0, 0, 1), (0, 0, 2)], index := 0, range_min := 0, range_max := 1,
        frame_states := [] } 1 5).1 (by decide)
  · exact ((C7_set_range
      { seq := [(0, 0, 1), (0, 0, 2)], index := 0, range_min := 0, range_max := 1,
        frame_states := [] } 1 1).2 (by decide)).1
  · exact ((C7_set_range
      { seq := [(0, 0, 1), (0, 0, 2)], index := 0, range_min := 0, range_max := 1,
        frame_states := [] } 1 1).2 (by decide)).2.2.1

/-- C8: `advance()` with the index already at `range_max` leaves the
index (and window and sequence) unchanged; its store mutation is exactly
the write of the current frame's checkbox values, every other key reads
as before, and the file written is the persisted snapshot of that
updated store. -/
theorem C8_advance_at_boundary (b : Baseline) (st : AppState) (checks : List Int)
    (hlen : checks.length = STRUCTURE_COLUMNS.length)
    (h0 : ¬ total st = 0) (hb : st.index = st.range_max) :
    (save_and_next b st checks).1.index = st.index ∧
    (save_and_next b st checks).1.range_min = st.range_min ∧
    (save_and_next b st checks).1.range_max = st.range_max ∧
    (save_and_next b st checks).1.seq = st.seq ∧
    (save_and_next b st checks).1.frame_states =
      storeInsert st.frame_states (keyAt st.seq st.index) checks ∧
    (∀ k', k' ≠ keyAt st.seq st.index →
      storeLookup (save_and_next b st checks).1.frame_states k' =
        storeLookup st.frame_states k') ∧
    (save_and_next b st checks).2 =
      some (persist_all b (save_and_next b st checks).1.frame_states) := by
  have key : save_and_next b st checks =
      ((get_current_values b st checks).2,
        some (persist_all b (get_current_values b st checks).2.frame_states)) := by
    unfold save_and_next
    rw [if_neg h0]
    simp only [if_pos (show st.range_max < st.index + 1 by omega)]
  have hfs : (get_current_values b st checks).2.frame_states =
      storeInsert st.frame_states (keyAt st.seq st.index) checks := by
    show storeInsert st.frame_states (keyAt st.seq st.index)
      ((List.range STRUCTURE_COLUMNS.length).map (fun i => checks.getD i 0)) = _
    rw [range_map_getD hlen]
  rw [key]
  refine ⟨rfl, rfl, rfl, rfl, hfs, ?_, rfl⟩
  intro k' hk'
  show storeLookup (get_current_values b st checks).2.frame_states k' = _
  rw [hfs, storeLookup_insert, if_neg hk']

/-- C8 witness: advancing at the boundary of a one-frame range. -/
theorem C8_advance_at_boundary_witness :
    (save_and_next []
        { seq := [(4, 4, 4)], index := 0, range_min := 0, range_max := 0, frame_states := [] }
        [0, 0, 0, 0, 0, 0, 0, 0, 0, 0, 0, 1]).1.index = 0 ∧
    (save_and_next []
        { seq := [(4, 4, 4)], index := 0, range_min := 0, range_max := 0, frame_states := [] }
        [0, 0, 0, 0, 0, 0, 0, 0, 0, 0, 0, 1]).1.frame_states =
      storeInsert [] (keyAt [(4, 4, 4)] 0) [0, 0, 0, 0, 0, 0, 0, 0, 0, 0, 0, 1] := by
  have h := C8_advance_at_boundary []
    { seq := [(4, 4, 4)], index := 0, range_min := 0, range_max := 0, frame_states := [] }
    [0, 0, 0, 0, 0, 0, 0, 0, 0, 0, 0, 1] (by decide) (by decide) (by decide)
  exact ⟨h.1, h.2.2.2.2.1⟩

/-- C9: `jumpTo` rejects a target outside `[0, total)` or outside the
active window, changing nothing; an accepted jump only moves the index.
In both cases the label store is untouched and no CSV file is written —
unlike step navigation, the frame being left is not persisted. -/
theorem C9_jump (st : AppState) (target : Int) :
    ((target < 0 ∨ total st ≤ target ∨ target < st.range_min ∨ st.range_max < target) →
      skip_to_index st target = (st, none)) ∧
    ((0 ≤ target ∧ target < total st ∧ st.range_min ≤ target ∧ target ≤ st.range_max) →
      skip_to_index st target = ({ st with index := target }, none)) ∧
    (skip_to_index st target).1.frame_states = st.frame_states ∧
    (skip_to_index st target).2 = none := by
  refine ⟨?_, ?_, ?_, ?_⟩
  · intro h
    unfold skip_to_index
    by_cases h1 : target < 0 ∨ total st ≤ target
    · rw [if_pos h1]
    · rw [if_neg h1]
      rw [if_pos ?_]
      unfold in_range_index
      push_neg at h1 ⊢
      omega
  · intro h
    unfold skip_to_index
    rw [if_neg (by omega)]
    rw [if_neg (by
      push_neg
      show st.range_min ≤ target ∧ target ≤ st.range_max
      exact ⟨h.2.2.1, h.2.2.2⟩)]
    rw [load_image_state_of_in_range]
    · show ¬ total st = 0
      rcases h with ⟨h1, h2, h3⟩
      unfold total at h2 ⊢
      omega
    · show ¬ total st ≤ target
      rcases h with ⟨h1, h2, h3⟩
      omega
    · show st.range_min ≤ target ∧ target ≤ st.range_max
      exact ⟨h.2.2.1, h.2.2.2⟩
  · unfold skip_to_index
    split
    · rfl
    · split
      · rfl
      · exact load_image_state_frame_states _
  · unfold skip_to_index
    split
    · rfl
    · split
      · rfl
      · rfl

/-- C9 witness: a rejected and an accepted jump on a concrete state. -/
theorem C9_jump_witness :
    skip_to_index
        { seq := [(0, 0, 1), (0, 0, 2)], index := 0, range_min := 0, range_max := 1,
          frame_states := [((0, 0, 1), [1])] } 5 =
      ({ seq := [(0, 0, 1), (0, 0, 2)], index := 0, range_min := 0, range_max := 1,
         frame_states := [((0, 0, 1), [1])] }, none) ∧
    skip_to_index
        { seq := [(0, 0, 1), (0, 0, 2)], index := 0, range_min := 0, range_max := 1,
          frame_states := [((0, 0, 1), [1])] } 1 =
      ({ seq := [(0, 0, 1), (0, 0, 2)], index := 1, range_min := 0, range_max := 1,
         frame_states := [((0, 0, 1), [1])] }, none) := by
  constructor
  · exact (C9_jump
      { seq := [(0, 0, 1), (0, 0, 2)], index := 0, range_min := 0, range_max := 1,
        frame_states := [((0, 0, 1), [1])] } 5).1 (by right; left; decide)
  · exact (C9_jump
      { seq := [(0, 0, 1), (0, 0, 2)], index := 0, range_min := 0, range_max := 1,
        frame_states := [((0, 0, 1), [1])] } 1).2.1 ⟨by decide, by decide, by decide, by decide⟩

/-! ## C5: the CSV writer -/

theorem keyLe_trans (a b c : FrameKey) : keyLe a b = true → keyLe b c = true →
    keyLe a c = true := by
  obtain ⟨a1, a2, a3⟩ := a
  obtain ⟨b1, b2, b3⟩ := b
  obtain ⟨c1, c2, c3⟩ := c
  simp only [keyLe, decide_eq_true_eq]
  omega

theorem keyLe_total (a b : FrameKey) : (keyLe a b || keyLe b a) = true := by
  obtain ⟨a1, a2, a3⟩ := a
  obtain ⟨b1, b2, b3⟩ := b
  simp only [keyLe, Bool.or_eq_true, decide_eq_true_eq]
  omega

theorem entryLe_trans (a b c : FrameKey × List Int) : entryLe a b = true → entryLe b c = true →
    entryLe a c = true :=
  keyLe_trans a.1 b.1 c.1

theorem entryLe_total (a b : FrameKey × List Int) : (entryLe a b || entryLe b a) = true :=
  keyLe_total a.1 b.1

theorem keyLe_ne_lt {a b : FrameKey} (hle : keyLe a b = true) (hne : a ≠ b) : keyLt a b := by
  obtain ⟨a1, a2, a3⟩ := a
  obtain ⟨b1, b2, b3⟩ := b
  simp only [keyLe, decide_eq_true_eq] at hle
  simp only [ne_eq, Prod.mk.injEq, not_and] at hne
  unfold keyLt
  dsimp only at hle ⊢
  by_cases h1 : a1 = b1
  · by_cases h2 : a2 = b2
    · have h3 : ¬ a3 = b3 := fun h3 => hne h1 h2 h3
      omega
    · omega
  · omega

theorem keyLt_asymm {a b : FrameKey} (h1 : keyLt a b) (h2 : keyLt b a) : False := by
  obtain ⟨a1, a2, a3⟩ := a
  obtain ⟨b1, b2, b3⟩ := b
  unfold keyLt at h1 h2
  omega

/-- The key-sortedness of the entry list behind the written body. -/
theorem mergeSort_pairwise_keyLt (fs : Store) (hnodup : (fs.map Prod.fst).Nodup) :
    List.Pairwise (fun a b : FrameKey × List Int => keyLt a.1 b.1) (fs.mergeSort entryLe) := by
  have hperm : (fs.mergeSort entryLe).Perm fs := List.mergeSort_perm fs entryLe
  have hsorted : List.Pairwise (fun a b => entryLe a b = true) (fs.mergeSort entryLe) :=
    List.sorted_mergeSort entryLe_trans entryLe_total fs
  have hnodup' : ((fs.mergeSort entryLe).map Prod.fst).Nodup :=
    ((hperm.map Prod.fst).nodup_iff).mpr hnodup
  have hne : List.Pairwise (fun a b : FrameKey × List Int => a.1 ≠ b.1) (fs.mergeSort entryLe) :=
    List.pairwise_map.mp hnodup'
  exact (hsorted.and hne).imp (fun h => keyLe_ne_lt h.1 h.2)

/-- The positional layout of one written row's interleaved cells. -/
theorem persistCells_get? (defaults : List (Option Int)) (cbs : List Int) :
    ∀ (structs : List String) (idx j : Nat), j < structs.length →
      (persistCells defaults cbs idx structs).get? (2 * j) =
        some (sevCell (defaults.getD (idx + j) (some 0))) ∧
      (persistCells defaults cbs idx structs).get? (2 * j + 1) =
        some (if cbs.getD (idx + j) 0 = 1 then 1 else 0) := by
  intro structs
  induction structs with
  | nil =>
    intro idx j hj
    simp at hj
  | cons s rest ih =>
    intro idx j hj
    cases j with
    | zero =>
      constructor
      · show (persistCells defaults cbs idx (s :: rest)).get? 0 = _
        simp [persistCells]
      · show (persistCells defaults cbs idx (s :: rest)).get? 1 = _
        simp [persistCells]
    | succ j' =>
      have hj' : j' < rest.length := by simpa using hj
      have hmain := ih (idx + 1) j' hj'
      have harith : idx + 1 + j' = idx + (j' + 1) := by omega
      rw [harith] at hmain
      constructor
      · have h2 : 2 * (j' + 1) = 2 * j' + 1 + 1 := by ring
        rw [h2]
        show (persistCells defaults cbs idx (s :: rest)).get? (2 * j' + 1 + 1) = _
        simp only [persistCells, List.get?_cons_succ]
        exact hmain.1
      · have h2 : 2 * (j' + 1) + 1 = 2 * j' + 1 + 1 + 1 := by ring
        rw [h2]
        show (persistCells defaults cbs idx (s :: rest)).get? (2 * j' + 1 + 1 + 1) = _
        simp only [persistCells, List.get?_cons_succ]
        exact hmain.2

theorem getD_visOf_eq_self {l : List Int} (h : ∀ c ∈ l, c = 0 ∨ c = 1) (i : Nat) :
    (if l.getD i 0 = 1 then (1 : Int) else 0) = l.getD i 0 := by
  by_cases hi : i < l.length
  · rw [List.getD_eq_getElem l 0 hi]
    rcases h _ (List.getElem_mem hi) with h0 | h1
    · rw [h0]
      rfl
    · rw [h1]
      rfl
  · rw [List.getD_eq_default l 0 (Nat.le_of_not_lt hi)]
    rfl

/-- C5: the writer emits the fixed current-schema header, one row per
store entry sorted strictly ascending by the key tuple and independent
of insertion order, each row carrying the key cells followed by
interleaved severity (baseline lookup with 0 for an absent row or
missing value) and visibility (the stored 0/1) cells. -/
theorem C5_writer (b : Baseline) (fs : Store)
    (hnodup : (fs.map Prod.fst).Nodup)
    (h01 : ∀ e ∈ fs, ∀ c ∈ e.2, c = 0 ∨ c = 1) :
    (persist_all b fs).1 = ["video", "swallow", "frame",
      "LPW_PPW_sev", "LPW_PPW_vis", "B_sev", "B_vis", "VT_sev", "VT_vis",
      "LC_LP_sev", "LC_LP_vis", "RC_RP_sev", "RC_RP_vis", "PCR_sev", "PCR_vis",
      "LA_LAF_sev", "LA_LAF_vis", "RA_RAF_sev", "RA_RAF_vis", "IAS_sev", "IAS_vis",
      "LSE_sev", "LSE_vis", "LSAF_FVF_sev", "LSAF_FVF_vis", "AC_TVF_PC_sev",
      "AC_TVF_PC_vis"] ∧
    List.Pairwise (fun r1 r2 : List Int =>
      keyLt (r1.getD 0 0, r1.getD 1 0, r1.getD 2 0) (r2.getD 0 0, r2.getD 1 0, r2.getD 2 0))
      (persist_all b fs).2 ∧
    (∀ fs', fs.Perm fs' → persist_all b fs = persist_all b fs') ∧
    (persist_all b fs).2.length = fs.length ∧
    (∀ e ∈ fs, ∃ cells, [e.1.1, e.1.2.1, e.1.2.2] ++ cells ∈ (persist_all b fs).2 ∧
      (∀ i, i < STRUCTURE_COLUMNS.length →
        cells.get? (2 * i) =
          some (sevCell ((get_swallow_defaults b e.1.1 e.1.2.1).getD i (some 0))) ∧
        cells.get? (2 * i + 1) = some (e.2.getD i 0))) ∧
    (∀ v s, b.find? (fun q => q.1 = (v, s)) = none →
      get_swallow_defaults b v s = List.replicate STRUCTURE_COLUMNS.length (some 0)) ∧
    sevCell none = 0 := by
  refine ⟨rfl, ?_, ?_, ?_, ?_, ?_, rfl⟩
  · show List.Pairwise _ ((fs.mergeSort entryLe).map (fun e => persistRow b e))
    refine List.pairwise_map.mpr ?_
    exact (mergeSort_pairwise_keyLt fs hnodup).imp (fun h => h)
  · intro fs' hperm
    have hperm2 : (fs.mergeSort entryLe).Perm (fs'.mergeSort entryLe) :=
      ((List.mergeSort_perm fs entryLe).trans hperm).trans
        (List.mergeSort_perm fs' entryLe).symm
    have hnodup2 : (fs'.map Prod.fst).Nodup := ((hperm.map Prod.fst).nodup_iff).mp hnodup
    haveI : IsAntisymm (FrameKey × List Int) (fun a b => keyLt a.1 b.1) :=
      ⟨fun a b h1 h2 => (keyLt_asymm h1 h2).elim⟩
    have heq : fs.mergeSort entryLe = fs'.mergeSort entryLe :=
      List.eq_of_perm_of_sorted hperm2 (mergeSort_pairwise_keyLt fs hnodup)
        (mergeSort_pairwise_keyLt fs' hnodup2)
    show (persistHeader, _) = (persistHeader, _)
    rw [heq]
  · show ((fs.mergeSort entryLe).map (fun e => persistRow b e)).length = fs.length
    rw [List.length_map]
    exact (List.mergeSort_perm fs entryLe).length_eq
  · intro e he
    refine ⟨persistCells (get_swallow_defaults b e.1.1 e.1.2.1) e.2 0 STRUCTURE_COLUMNS, ?_, ?_⟩
    · show persistRow b e ∈ _
      exact List.mem_map.mpr ⟨e, List.mem_mergeSort.mpr he, rfl⟩
    · intro i hi
      have hcells := persistCells_get? (get_swallow_defaults b e.1.1 e.1.2.1) e.2
        STRUCTURE_COLUMNS 0 i hi
      simp only [Nat.zero_add] at hcells
      exact ⟨hcells.1, hcells.2.trans (congrArg some (getD_visOf_eq_self (h01 e he) i))⟩
  · intro v s hfind
    unfold get_swallow_defaults
    rw [hfind]

/-- C5 witness: the writer on a concrete two-entry store, inserted in
descending key order. -/
theorem C5_writer_witness :
    (persist_all [] [((2, 0, 0), [1, 1, 1, 1, 1, 1, 1, 1, 1, 1, 1, 1]),
        ((1, 0, 0), [0, 0, 0, 0, 0, 0, 0, 0, 0, 0, 0, 0])]).1 =
      ["video", "swallow", "frame",
        "LPW_PPW_sev", "LPW_PPW_vis", "B_sev", "B_vis", "VT_sev", "VT_vis",
        "LC_LP_sev", "LC_LP_vis", "RC_RP_sev", "RC_RP_vis", "PCR_sev", "PCR_vis",
        "LA_LAF_sev", "LA_LAF_vis", "RA_RAF_sev", "RA_RAF_vis", "IAS_sev", "IAS_vis",
        "LSE_sev", "LSE_vis", "LSAF_FVF_sev", "LSAF_FVF_vis", "AC_TVF_PC_sev",
        "AC_TVF_PC_vis"] ∧
    (persist_all [] [((2, 0, 0), [1, 1, 1, 1, 1, 1, 1, 1, 1, 1, 1, 1]),
        ((1, 0, 0), [0, 0, 0, 0, 0, 0, 0, 0, 0, 0, 0, 0])]).2.length = 2 := by
  have h := C5_writer [] [((2, 0, 0), [1, 1, 1, 1, 1, 1, 1, 1, 1, 1, 1, 1]),
    ((1, 0, 0), [0, 0, 0, 0, 0, 0, 0, 0, 0, 0, 0, 0])] (by decide) (by decide)
  exact ⟨h.1, h.2.2.2.1⟩

/-! ## C10: positional reading under the current schema -/

theorem except_ok_bind {ε α β : Type} (a : α) (f : α → Except ε β) :
    (Except.ok a : Except ε α) >>= f = f a := rfl

theorem except_error_bind {ε α β : Type} (e : ε) (f : α → Except ε β) :
    (Except.error e : Except ε α) >>= f = Except.error e := rfl

/-- Once every `s_vis` lookup succeeds, the NEW-schema reader is the
header-free positional reader. -/
theorem readNew_eq_positional : ∀ (structs header : List String) (row : Row),
    (∀ s ∈ structs, (s ++ "_vis") ∈ header) →
    readRowNewCells header row structs = readVisPositional row structs := by
  intro structs
  induction structs with
  | nil =>
    intro header row _
    rfl
  | cons s rest ih =>
    intro header row h
    obtain ⟨i, hi⟩ := headerIndex_ok_of_mem (h s (List.mem_cons_self s rest))
    have ihe := ih header row (fun t ht => h t (List.mem_cons_of_mem s ht))
    simp only [readRowNewCells, readVisPositional, hi, except_ok_bind, ihe]

/-- A successful positional read takes visibility `i` from cell
`3 + 2*i + 1` and nothing else. -/
theorem readVisPositional_ok (row : Row) :
    ∀ (structs : List String) (idx : Nat),
      (∀ j (hj : j < structs.length), STRUCTURE_COLUMNS.indexOf (structs.get ⟨j, hj⟩) = idx + j) →
      ∀ v, readVisPositional row structs = .ok v →
        ∀ j, j < structs.length → ∃ c : Int,
          row.get? (3 + 2 * (idx + j) + 1) = some (some c) ∧
          v.get? j = some (if c = 1 then 1 else 0) := by
  intro structs
  induction structs with
  | nil =>
    intro idx _ v _ j hj
    simp at hj
  | cons s rest ih =>
    intro idx hidx v hok j hj
    have hbase : STRUCTURE_COLUMNS.indexOf s = idx := by
      have h0 := hidx 0 (by simp)
      simpa using h0
    rw [show readVisPositional row (s :: rest) =
        (getCell row (3 + 2 * (STRUCTURE_COLUMNS.indexOf s)) >>= fun sevC =>
          cellInt sevC >>= fun _ =>
          getCell row (3 + 2 * (STRUCTURE_COLUMNS.indexOf s) + 1) >>= fun visC =>
          cellInt visC >>= fun vis =>
          readVisPositional row rest >>= fun tail =>
          pure ((if vis = 1 then 1 else 0) :: tail)) from rfl, hbase] at hok
    cases hA : getCell row (3 + 2 * idx) with
    | error e =>
      rw [hA, except_error_bind] at hok
      exact absurd hok (by simp)
    | ok sevC =>
      rw [hA, except_ok_bind] at hok
      cases hB : cellInt sevC with
      | error e =>
        rw [hB, except_error_bind] at hok
        exact absurd hok (by simp)
      | ok sv =>
        rw [hB, except_ok_bind] at hok
        cases hC : getCell row (3 + 2 * idx + 1) with
        | error e =>
          rw [hC, except_error_bind] at hok
          exact absurd hok (by simp)
        | ok visC =>
          rw [hC, except_ok_bind] at hok
          cases hD : cellInt visC with
          | error e =>
            rw [hD, except_error_bind] at hok
            exact absurd hok (by simp)
          | ok vis =>
            rw [hD, except_ok_bind] at hok
            cases hE : readVisPositional row rest with
            | error e =>
              rw [hE, except_error_bind] at hok
              exact absurd hok (by simp)
            | ok tail =>
              rw [hE, except_ok_bind] at hok
              have hv : (if vis = 1 then (1 : Int) else 0) :: tail = v := by
                have hok2 : (Except.ok ((if vis = 1 then (1 : Int) else 0) :: tail) :
                    Except PyErr (List Int)) = Except.ok v := hok
                simpa using hok2
              have hvisC : visC = some vis := by
                cases visC with
                | none => simp [cellInt] at hD
                | some w => simpa [cellInt] using hD
              have hcell : row.get? (3 + 2 * idx + 1) = some (some vis) := by
                unfold getCell at hC
                cases hr : row.get? (3 + 2 * idx + 1) with
                | none => rw [hr] at hC; simp at hC
                | some c0 =>
                  rw [hr] at hC
                  simp only [Except.ok.injEq] at hC
                  rw [hC, hvisC]
              cases j with
              | zero =>
                refine ⟨vis, ?_, ?_⟩
                · simpa using hcell
                · rw [← hv]
                  rfl
              | succ j' =>
                have hj' : j' < rest.length := by simpa using hj
                have hidx' : ∀ j (hjr : j < rest.length),
                    STRUCTURE_COLUMNS.indexOf (rest.get ⟨j, hjr⟩) = (idx + 1) + j := by
                  intro j hjr
                  have := hidx (j + 1) (by simpa using Nat.succ_lt_succ hjr)
                  simpa [Nat.add_assoc, Nat.add_comm 1 j] using this
                have hrec := ih (idx + 1) hidx' tail hE j' hj'
                obtain ⟨c, hc1, hc2⟩ := hrec
                refine ⟨c, ?_, ?_⟩
                · have : idx + 1 + j' = idx + (j' + 1) := by omega
                  rwa [this] at hc1
                · rw [← hv]
                  simpa using hc2

/-- C10: under the current schema the visibility for the structure at
schema index `i` is read from cell `3 + 2*i + 1` of the row, purely
positionally; two headers that both contain every `s_vis` column — in
whatever order — produce identical readings. -/
theorem C10_positional_read (h1 h2 : List String) (row : Row)
    (hall1 : ∀ s ∈ STRUCTURE_COLUMNS, (s ++ "_vis") ∈ h1)
    (hall2 : ∀ s ∈ STRUCTURE_COLUMNS, (s ++ "_vis") ∈ h2) :
    readRowNewCells h1 row STRUCTURE_COLUMNS = readRowNewCells h2 row STRUCTURE_COLUMNS ∧
    readRowNewCells h1 row STRUCTURE_COLUMNS = readVisPositional row STRUCTURE_COLUMNS ∧
    (∀ v, readVisPositional row STRUCTURE_COLUMNS = .ok v →
      ∀ i, i < STRUCTURE_COLUMNS.length → ∃ c : Int,
        row.get? (3 + 2 * i + 1) = some (some c) ∧
        v.get? i = some (if c = 1 then 1 else 0)) := by
  refine ⟨?_, readNew_eq_positional STRUCTURE_COLUMNS h1 row hall1, ?_⟩
  · exact (readNew_eq_positional STRUCTURE_COLUMNS h1 row hall1).trans
      (readNew_eq_positional STRUCTURE_COLUMNS h2 row hall2).symm
  · intro v hok i hi
    have hidx : ∀ j (hj : j < STRUCTURE_COLUMNS.length),
        STRUCTURE_COLUMNS.indexOf (STRUCTURE_COLUMNS.get ⟨j, hj⟩) = 0 + j := by
      decide
    have h := readVisPositional_ok row STRUCTURE_COLUMNS 0 hidx v hok i hi
    simpa using h

/-- C10 witness: the same row read under the written header and under a
reversed header, plus the positional cell for structure 0. -/
theorem C10_positional_read_witness :
    readRowNewCells persistHeader ((some 9) :: (some 9) :: (some 9) :: List.replicate 24 (some 1))
        STRUCTURE_COLUMNS =
      readRowNewCells persistHeader.reverse
        ((some 9) :: (some 9) :: (some 9) :: List.replicate 24 (some 1)) STRUCTURE_COLUMNS ∧
    (∃ c : Int, ((some 9) :: (some 9) :: (some 9) :: List.replicate 24 (some 1) : Row).get?
        (3 + 2 * 0 + 1) = some (some c) ∧
      (List.replicate 12 (1 : Int)).get? 0 = some (if c = 1 then 1 else 0)) := by
  have h := C10_positional_read persistHeader persistHeader.reverse
    ((some 9) :: (some 9) :: (some 9) :: List.replicate 24 (some 1))
    (by decide) (by decide)
  exact ⟨h.1, h.2.2 (List.replicate 12 1) (by rfl) 0 (by decide)⟩

/-! ## C6: dataset folder discovery -/

theorem charListLe_trans : ∀ (a b c : List Char),
    charListLe a b = true → charListLe b c = true → charListLe a c = true
  | [], _, _, _, _ => rfl
  | x :: as, [], c, hab, _ => by simp [charListLe] at hab
  | x :: as, y :: bs, [], _, hbc => by simp [charListLe] at hbc
  | x :: as, y :: bs, z :: cs, hab, hbc => by
    simp only [charListLe] at hab hbc ⊢
    by_cases hxy : x = y
    · subst hxy
      by_cases hyz : x = z
      · subst hyz
        rw [if_pos rfl] at hab hbc ⊢
        exact charListLe_trans as bs cs hab hbc
      · rw [if_neg hyz] at hbc ⊢
        exact hbc
    · by_cases hyz : y = z
      · subst hyz
        rw [if_neg hxy] at hab ⊢
        exact hab
      · rw [if_neg hxy] at hab
        rw [if_neg hyz] at hbc
        have hxz : x < z := lt_trans (of_decide_eq_true hab) (of_decide_eq_true hbc)
        rw [if_neg (ne_of_lt hxz)]
        exact decide_eq_true hxz

theorem charListLe_total : ∀ (a b : List Char), (charListLe a b || charListLe b a) = true
  | [], _ => by simp [charListLe]
  | _ :: _, [] => by simp [charListLe]
  | x :: as, y :: bs => by
    simp only [charListLe]
    by_cases hxy : x = y
    · subst hxy
      rw [if_pos rfl, if_pos rfl]
      exact charListLe_total as bs
    · rw [if_neg hxy, if_neg (Ne.symm hxy)]
      rcases lt_or_gt_of_ne hxy with h | h
      · simp [decide_eq_true h]
      · simp [decide_eq_true h]

theorem splitSlash_append : ∀ (a r : List Char), '/' ∉ a →
    splitSlash (a ++ '/' :: r) = a :: splitSlash r
  | [], r, _ => by simp [splitSlash]
  | c :: a', r, h => by
    have hc : ¬ c = '/' := fun hc => h (by simp [hc])
    have ih := splitSlash_append a' r (fun ha => h (List.mem_cons_of_mem c ha))
    simp only [List.cons_append, splitSlash, if_neg hc, List.append_eq, ih]

theorem splitSlash_no_slash : ∀ (f : List Char), '/' ∉ f → splitSlash f = [f]
  | [], _ => rfl
  | c :: f', h => by
    have hc : ¬ c = '/' := fun hc => h (by simp [hc])
    have ih := splitSlash_no_slash f' (fun hf => h (List.mem_cons_of_mem c hf))
    simp only [splitSlash, if_neg hc, ih]

theorem globMatch_lits : ∀ (l : List Char) (ps : List GlobElem) (s : List Char),
    globMatch (l.map .lit ++ ps) (l ++ s) = globMatch ps s
  | [], _, _ => rfl
  | c :: l', ps, s => by
    have ih := globMatch_lits l' ps s
    simp [globMatch, ih]

theorem globMatch_star_of_suffix (ps : List GlobElem) {s t : List Char}
    (hsuf : s <:+ t) (h : globMatch ps s = true) :
    globMatch (.star :: ps) t = true := by
  show t.tails.any (fun u => globMatch ps u) = true
  exact List.any_eq_true.mpr ⟨s, (List.mem_tails s t).mpr hsuf, h⟩

theorem globMatch_star_nil (s : List Char) : globMatch [.star] s = true :=
  globMatch_star_of_suffix [] List.nil_suffix rfl

/-- The error in the claim: a `jpg` file fits the claimed pattern
`video<N>/swallow<M>/*frame_<F>.<png|jpg|jpeg>`, yet discovery (which
globs for `[Pp][Nn][Gg]` only) does not find it. -/
theorem C6_counterexample :
    specFramePath ("video1/swallow1/frame_0001.jpg".toList) ∧
    open_folder_paths ["video1/swallow1/frame_0001.jpg".toList] = [] := by
  constructor
  · exact ⟨['1'], ['1'], [], ['0', '0', '0', '1'], ['j', 'p', 'g'],
      by decide, by decide, by decide, by decide, by decide, by decide, by decide, by decide,
      Or.inr (Or.inl ⟨'j', 'p', 'g', rfl, Or.inl rfl, Or.inl rfl, Or.inl rfl⟩), by decide⟩
  · have hfil : List.filter matchesGlob ["video1/swallow1/frame_0001.jpg".toList] = [] := by
      decide
    show (List.filter matchesGlob ["video1/swallow1/frame_0001.jpg".toList]).mergeSort
      charListLe = []
    rw [hfil, List.mergeSort_nil]

/-- C6 (amended): discovery returns exactly the files matched by the glob
`video*/swallow*/*frame_*.[Pp][Nn][Gg]` — so of the claimed extensions
only `png` (in any letter case) is found, while `jpg`/`jpeg` files are
not — ordered lexically; and every path fitting the claimed pattern
with a `png` extension is indeed matched by that glob. -/
theorem C6_discovery (files : List (List Char)) :
    (∀ p, p ∈ open_folder_paths files ↔ p ∈ files ∧ matchesGlob p = true) ∧
    List.Pairwise (fun a b => charListLe a b = true) (open_folder_paths files) ∧
    (∀ p, specFramePathWith specExtPng p → matchesGlob p = true) := by
  refine ⟨?_, ?_, ?_⟩
  · intro p
    show p ∈ (files.filter matchesGlob).mergeSort charListLe ↔ _
    rw [List.mem_mergeSort, List.mem_filter]
  · exact List.sorted_mergeSort charListLe_trans charListLe_total _
  · intro p hp
    obtain ⟨nd, md, pre, fd, ext, hnd, hndd, hmd, hmdd, hfd, hfdd, hpre, hhid, hext, hshape⟩ := hp
    obtain ⟨c1, c2, c3, hext3, hc1, hc2, hc3⟩ := hext
    subst hext3
    have digit_ne_slash : ∀ c : Char, c.isDigit = true → ¬ c = '/' := by
      intro c hdig hc
      subst hc
      simp at hdig
    have hnoslash1 : '/' ∉ "video".toList ++ nd := by
      intro hmem
      rcases List.mem_append.mp hmem with hm | hm
      · simp at hm
      · exact digit_ne_slash '/' (hndd '/' hm) rfl
    have hnoslash2 : '/' ∉ "swallow".toList ++ md := by
      intro hmem
      rcases List.mem_append.mp hmem with hm | hm
      · simp at hm
      · exact digit_ne_slash '/' (hmdd '/' hm) rfl
    have hnoslash3 : '/' ∉ pre ++ ("frame_".toList ++ (fd ++ '.' :: [c1, c2, c3])) := by
      intro hmem
      rcases List.mem_append.mp hmem with hm | hm
      · exact hpre hm
      · rcases List.mem_append.mp hm with hm2 | hm2
        · simp at hm2
        · rcases List.mem_append.mp hm2 with hm3 | hm3
          · exact digit_ne_slash '/' (hfdd '/' hm3) rfl
          · rcases List.mem_cons.mp hm3 with hm4 | hm4
            · simp at hm4
            · rcases hc1 with rfl | rfl <;> rcases hc2 with rfl | rfl <;>
                rcases hc3 with rfl | rfl <;> simp_all
    have hsplit : splitSlash p =
        ["video".toList ++ nd, "swallow".toList ++ md,
          pre ++ ("frame_".toList ++ (fd ++ '.' :: [c1, c2, c3]))] := by
      rw [hshape]
      have e1 : "video".toList ++ nd ++ '/' :: ("swallow".toList ++ md ++ '/' ::
          (pre ++ "frame_".toList ++ fd ++ '.' :: [c1, c2, c3])) =
        ("video".toList ++ nd) ++ '/' :: (("swallow".toList ++ md) ++ '/' ::
          (pre ++ ("frame_".toList ++ (fd ++ '.' :: [c1, c2, c3])))) := by
        simp [List.append_assoc]
      rw [e1, splitSlash_append _ _ hnoslash1, splitSlash_append _ _ hnoslash2,
        splitSlash_no_slash _ hnoslash3]
    unfold matchesGlob
    rw [hsplit]
    show (globMatch (litPattern "video" ++ [.star]) ("video".toList ++ nd) &&
      globMatch (litPattern "swallow" ++ [.star]) ("swallow".toList ++ md) &&
      decide ((pre ++ ("frame_".toList ++ (fd ++ '.' :: [c1, c2, c3]))).head? ≠ some '.') &&
      globMatch fnamePattern (pre ++ ("frame_".toList ++ (fd ++ '.' :: [c1, c2, c3])))) = true
    have hvm : globMatch (litPattern "video" ++ [.star]) ("video".toList ++ nd) = true := by
      show globMatch ("video".toList.map .lit ++ [.star]) ("video".toList ++ nd) = true
      rw [globMatch_lits]
      exact globMatch_star_nil nd
    have hsm : globMatch (litPattern "swallow" ++ [.star]) ("swallow".toList ++ md) = true := by
      show globMatch ("swallow".toList.map .lit ++ [.star]) ("swallow".toList ++ md) = true
      rw [globMatch_lits]
      exact globMatch_star_nil md
    have hhead : (pre ++ ("frame_".toList ++ (fd ++ '.' :: [c1, c2, c3]))).head? ≠ some '.' := by
      cases pre with
      | nil => simp
      | cons q pre' =>
        simp only [List.cons_append, List.head?_cons]
        simpa using hhid
    have hdot : globMatch [.lit '.', .cls ['P', 'p'], .cls ['N', 'n'], .cls ['G', 'g']]
        ('.' :: [c1, c2, c3]) = true := by
      rcases hc1 with rfl | rfl <;> rcases hc2 with rfl | rfl <;> rcases hc3 with rfl | rfl <;>
        decide
    have hstar2 : globMatch ([.star, .lit '.', .cls ['P', 'p'], .cls ['N', 'n'], .cls ['G', 'g']])
        (fd ++ '.' :: [c1, c2, c3]) = true :=
      globMatch_star_of_suffix _ (List.suffix_append fd _) hdot
    have hfm : globMatch fnamePattern
        (pre ++ ("frame_".toList ++ (fd ++ '.' :: [c1, c2, c3]))) = true := by
      show globMatch (.star :: (litPattern "frame_" ++
        [.star, .lit '.', .cls ['P', 'p'], .cls ['N', 'n'], .cls ['G', 'g']])) _ = true
      refine globMatch_star_of_suffix _ (List.suffix_append pre _) ?_
      show globMatch ("frame_".toList.map .lit ++ _) _ = true
      rw [globMatch_lits]
      exact hstar2
    rw [hvm, hsm, hfm]
    simp
    exact hhid

/-- C6 witness: a `png` file fitting the claimed pattern is discovered,
and its discovery is exactly glob membership. -/
theorem C6_discovery_witness :
    ("video1/swallow1/frame_0001.png".toList ∈
        open_folder_paths ["video1/swallow1/frame_0001.png".toList] ↔
      "video1/swallow1/frame_0001.png".toList ∈ ["video1/swallow1/frame_0001.png".toList] ∧
        matchesGlob "video1/swallow1/frame_0001.png".toList = true) ∧
    matchesGlob "video1/swallow1/frame_0001.png".toList = true := by
  constructor
  · exact (C6_discovery ["video1/swallow1/frame_0001.png".toList]).1
      ("video1/swallow1/frame_0001.png".toList)
  · exact (C6_discovery ["video1/swallow1/frame_0001.png".toList]).2.2
      ("video1/swallow1/frame_0001.png".toList)
      ⟨['1'], ['1'], [], ['0', '0', '0', '1'], ['p', 'n', 'g'],
        by decide, by decide, by decide, by decide, by decide, by decide, by decide, by decide,
        ⟨'p', 'n', 'g', rfl, Or.inl rfl, Or.inl rfl, Or.inl rfl⟩, by decide⟩

end FeesLabeler
